import Mathlib

/-!
Verification of the gf-adapter policy-store adapter (`src/adapter.go`).

The repository bundles several revisions of the same Casbin adapter for the
GoFrame ORM.  Unless stated otherwise, the definitions below embed the newest
revision (the fourth `package adapter` block in `src/adapter.go`): the
`Rule` record, `buildRule`, `Rule.toSlice`, `Rule.toQuery`, `loadPolicyRule`,
`LoadPolicy`, `LoadFilteredPolicy`, `SavePolicy`, `AddPolicy`,
`RemovePolicy`, `RemoveFilteredPolicy`, `UpdatePolicies` and
`UpdateFilteredPolicies`.  One definition (`trimLoop` / `loadPolicyRuleTrim`)
embeds the third revision's `loadPolicyRule`, which trims trailing empty
fields with a descending index loop.

The database table is modelled as a list of rows carrying the auto-increment
primary key `id`; the SQL layer's `ORDER BY id ASC` is modelled by sorting on
`id`.  Fallible database calls (truncate, batch insert, scan, statement
inside a transaction) are modelled by explicit success/failure oracles passed
as parameters; a GoFrame `Transaction` rolls back every statement executed
inside it on failure, which the model renders by returning the state from
before the transaction.  GoFrame v2 propagates an open transaction through
the `ctx` argument, so a statement built from the plain handle but executed
with the transaction's ctx joins the transaction.

The Go code panics when `loadPolicyRule` slices `key[:1]` on an empty
`p_type` (and the engine never produces an empty rule-kind); theorems about
loading therefore carry the hypothesis that stored rule-kinds are non-empty.
-/

namespace GfAdapter

/-- The persisted rule entity (`Rule` struct of the newest revision):
`p_type` plus six positional value fields, all strings. -/
structure Rule where
  pType : String
  v0 : String
  v1 : String
  v2 : String
  v3 : String
  v4 : String
  v5 : String
deriving Repr, DecidableEq

/-- `buildRule` (newest revision): field `vi` receives `data[i]` when
`len(data) > i` and otherwise keeps Go's zero value `""`. -/
def buildRule (pType : String) (data : List String) : Rule where
  pType := pType
  v0 := data.getD 0 ""
  v1 := data.getD 1 ""
  v2 := data.getD 2 ""
  v3 := data.getD 3 ""
  v4 := data.getD 4 ""
  v5 := data.getD 5 ""

/-- `Rule.toSlice` (newest revision): appends each of `v0..v5` that is not
the empty string, in order.  Note that this drops empty fields anywhere in
the tuple, not only trailing ones. -/
def Rule.toSlice (c : Rule) : List String :=
  (if c.v0 = "" then [] else [c.v0]) ++
  (if c.v1 = "" then [] else [c.v1]) ++
  (if c.v2 = "" then [] else [c.v2]) ++
  (if c.v3 = "" then [] else [c.v3]) ++
  (if c.v4 = "" then [] else [c.v4]) ++
  (if c.v5 = "" then [] else [c.v5])

/-- `Rule.toQuery` (newest revision) builds `p_type=?` plus one `AND vi=?`
conjunct for every NON-empty field of the rule; this function is the
predicate a row must satisfy to be matched by the resulting WHERE clause. -/
def Rule.toQueryMatch (c : Rule) (r : Rule) : Bool :=
  (r.pType == c.pType) &&
  (c.v0 == "" || r.v0 == c.v0) &&
  (c.v1 == "" || r.v1 == c.v1) &&
  (c.v2 == "" || r.v2 == c.v2) &&
  (c.v3 == "" || r.v3 == c.v3) &&
  (c.v4 == "" || r.v4 == c.v4) &&
  (c.v5 == "" || r.v5 == c.v5)

/-- Positional access `v0..v5`; indices beyond 5 never arise under the
bounds hypotheses carried by the theorems (the SQL layer would reject the
nonexistent column `v6`). -/
def Rule.vAt (r : Rule) : Nat → String
  | 0 => r.v0
  | 1 => r.v1
  | 2 => r.v2
  | 3 => r.v3
  | 4 => r.v4
  | 5 => r.v5
  | _ => ""

/-- A stored row: auto-increment primary key plus the rule columns. -/
structure Row where
  id : Nat
  rule : Rule
deriving Repr, DecidableEq

/-- The adapter's table: rows plus the next auto-increment id. -/
structure DB where
  rows : List Row
  nextId : Nat
deriving Repr, DecidableEq

def emptyDB : DB := ⟨[], 0⟩

/-- A single-row INSERT: the new row receives the next auto-increment id. -/
def insertRule (db : DB) (r : Rule) : DB :=
  ⟨db.rows ++ [⟨db.nextId, r⟩], db.nextId + 1⟩

/-- A batch INSERT: rows are inserted in order. -/
def insertRules (db : DB) (rs : List Rule) : DB :=
  rs.foldl insertRule db

/-- Ordering relation used to model `ORDER BY id ASC`. -/
def rowLe (a b : Row) : Prop := a.id ≤ b.id

instance : DecidableRel rowLe := fun a b => Nat.decLe a.id b.id

instance : IsTotal Row rowLe := ⟨fun a b => Nat.le_total a.id b.id⟩

instance : IsTrans Row rowLe := ⟨fun _ _ _ h1 h2 => Nat.le_trans h1 h2⟩

/-- `ORDER BY id ASC`: the rows sorted by primary key. -/
def sortById (l : List Row) : List Row := List.insertionSort rowLe l

/-- The engine's in-memory model, as far as the adapter touches it: a map
from section letter and rule-kind to the ordered list of policy tuples
(`model[sec][key].Policy`). -/
abbrev PolicyMap := String → String → List (List String)

def emptyPolicyMap : PolicyMap := fun _ _ => []

/-- `model[sec][key].Policy = append(model[sec][key].Policy, ruleText)`. -/
def appendPolicy (m : PolicyMap) (sec key : String) (t : List String) : PolicyMap :=
  fun s k => if s = sec ∧ k = key then m s k ++ [t] else m s k

/-- `loadPolicyRule` (newest revision): converts the row with `toSlice`,
RETURNS WITHOUT APPENDING when the slice is empty, and otherwise appends the
slice under `model[key[:1]][key]` where `key` is the row's `p_type`. -/
def loadPolicyRule (r : Rule) (m : PolicyMap) : PolicyMap :=
  let ruleText := r.toSlice
  if ruleText.isEmpty then m
  else appendPolicy m (r.pType.take 1) r.pType ruleText

/-- Folding `loadPolicyRule` over a list of scanned rows, in scan order. -/
def loadRules (rs : List Rule) (m : PolicyMap) : PolicyMap :=
  rs.foldl (fun acc r => loadPolicyRule r acc) m

/-- `LoadPolicy` (newest revision): scans all rows `ORDER BY id ASC` and
feeds each to `loadPolicyRule` in that order. -/
def LoadPolicy (db : DB) (m : PolicyMap) : PolicyMap :=
  loadRules ((sortById db.rows).map Row.rule) m

/-- `AddPolicy` (newest revision): inserts the single built row. -/
def AddPolicy (db : DB) (pType : String) (rule : List String) : DB :=
  insertRule db (buildRule pType rule)

/-- Removing all empty strings from a list; `Rule.toSlice ∘ buildRule`
computes exactly this (see `toSlice_buildRule`). -/
def removeAllEmpty : List String → List String
  | [] => []
  | s :: rest => if s = "" then removeAllEmpty rest else s :: removeAllEmpty rest

/-- Modelled from the spec: "a tuple equal to the original with trailing
empty fields stripped" — drop empty fields from the end only, keeping empty
fields that sit before a non-empty one. -/
def specTrimTrailing (l : List String) : List String :=
  (l.reverse.dropWhile (fun s => s == "")).reverse

/-- The `Filter` argument of `LoadFilteredPolicy`: one set of acceptable
values per column; an empty set adds no `WHERE ... IN` clause. -/
structure Filter where
  pType : List String
  v0 : List String
  v1 : List String
  v2 : List String
  v3 : List String
  v4 : List String
  v5 : List String
deriving Repr, DecidableEq

/-- The dynamically-typed `filter interface{}` argument: either an actual
`Filter` value or a value of some other type, which the code rejects. -/
inductive FilterArg where
  | valid (f : Filter)
  | invalid
deriving Repr, DecidableEq

/-- The WHERE clause assembled by `LoadFilteredPolicy`: one `IN` constraint
per non-empty field set, conjoined. -/
def filterMatch (f : Filter) (r : Rule) : Bool :=
  (f.pType.isEmpty || f.pType.contains r.pType) &&
  (f.v0.isEmpty || f.v0.contains r.v0) &&
  (f.v1.isEmpty || f.v1.contains r.v1) &&
  (f.v2.isEmpty || f.v2.contains r.v2) &&
  (f.v3.isEmpty || f.v3.contains r.v3) &&
  (f.v4.isEmpty || f.v4.contains r.v4) &&
  (f.v5.isEmpty || f.v5.contains r.v5)

/-- `LoadFilteredPolicy` (newest revision): rejects a non-`Filter` argument,
otherwise scans the rows satisfying the assembled WHERE clause (in table
order; no ORDER BY here), feeds them to `loadPolicyRule`, and sets
`isFiltered`.  The returned pair is the updated model and the adapter's
`isFiltered` flag after the call. -/
def LoadFilteredPolicy (db : DB) (m : PolicyMap) (fa : FilterArg) :
    Except String (PolicyMap × Bool) :=
  match fa with
  | .invalid => .error "invalid filter type"
  | .valid f =>
      let sel := (db.rows.map Row.rule).filter (filterMatch f)
      .ok (loadRules sel m, true)

/-- `RemovePolicy` (newest revision): one DELETE with the WHERE clause of
`toQuery` on the built rule.  A delete matching zero rows is not an error,
hence the constant `true` success flag. -/
def RemovePolicy (db : DB) (pType : String) (rule : List String) : DB × Bool :=
  let q := buildRule pType rule
  (⟨db.rows.filter (fun row => !(q.toQueryMatch row.rule)), db.nextId⟩, true)

/-- The positional loop shared by `RemoveFilteredPolicy` and
`UpdateFilteredPolicies` (newest revision): starting at `fieldIndex`, each
NON-empty value constrains the next column; empty values only advance the
index. -/
def matchWindow (r : Rule) : Nat → List String → Bool
  | _, [] => true
  | i, v :: vs => (v == "" || r.vAt i == v) && matchWindow r (i + 1) vs

/-- The WHERE clause of the positional filter: `p_type` equality plus the
window constraints. -/
def posFilterMatch (pType : String) (fieldIndex : Nat) (fieldValues : List String)
    (r : Rule) : Bool :=
  (r.pType == pType) && matchWindow r fieldIndex fieldValues

/-- `RemoveFilteredPolicy` (newest revision): rejects a field index outside
`0..5`, otherwise deletes the rows matched by the positional filter. -/
def RemoveFilteredPolicy (db : DB) (pType : String) (fieldIndex : Nat)
    (fieldValues : List String) : DB × Bool :=
  if 5 < fieldIndex then (db, false)
  else
    (⟨db.rows.filter (fun row => !(posFilterMatch pType fieldIndex fieldValues row.rule)),
      db.nextId⟩, true)

/-- Splitting a rule list into insertion batches of at most `n` rows, as the
`for i := 0; i < len(rules); i += batchSize` loops do with `batchSize`.  The
fuel argument only bounds the recursion; `l.length` fuel is enough whenever
`0 < n`. -/
def chunksAux (n : Nat) : Nat → List Rule → List (List Rule)
  | _, [] => []
  | 0, _ :: _ => []
  | fuel + 1, a :: l => (a :: l).take n :: chunksAux n fuel ((a :: l).drop n)

def chunks (n : Nat) (l : List Rule) : List (List Rule) :=
  chunksAux n l.length l

/-- The part of the engine model that `SavePolicy` reads: the `p` and `g`
sections, each a sequence of rule-kind keys with their policy lists (Go
iterates the two map sections; the list order fixes that iteration). -/
structure SaveModel where
  p : List (String × List (List String))
  g : List (String × List (List String))

/-- The rows `SavePolicy` builds: every rule of every kind of section `p`,
then of section `g`, through `buildRule`. -/
def savePolicyRules (m : SaveModel) : List Rule :=
  (m.p.map (fun pr => pr.2.map (buildRule pr.1))).flatten ++
  (m.g.map (fun pr => pr.2.map (buildRule pr.1))).flatten

/-- `SavePolicy` (newest revision).  Control flow of the source: truncate
the table (NOT inside the later transaction; on truncate failure the table
is untouched); build the rows; with no rows return success on the truncated
table; otherwise insert the rows in batches of 1000 inside one transaction,
which rolls every batch back on failure — the truncate is not undone.
`truncOk` and `failBatch` are the failure oracles for the two database
interactions: `failBatch = some j` makes the `j`-th batch insert fail. -/
def SavePolicy (db : DB) (m : SaveModel) (truncOk : Bool) (failBatch : Option Nat) :
    DB × Bool :=
  if !truncOk then (db, false)
  else
    let db1 : DB := ⟨[], 0⟩
    let rules := savePolicyRules m
    if rules.isEmpty then (db1, true)
    else
      match failBatch with
      | some j =>
          if j < (chunks 1000 rules).length then (db1, false)
          else ((chunks 1000 rules).foldl insertRules db1, true)
      | none => ((chunks 1000 rules).foldl insertRules db1, true)

/-- One iteration of `UpdatePolicies` (newest revision): DELETE the rows
matching `toQuery` of the old rule, then INSERT the new rule. -/
def updatePair (pType : String) (db : DB) (pr : List String × List String) : DB :=
  let oldQ := buildRule pType pr.1
  insertRule ⟨db.rows.filter (fun row => !(oldQ.toQueryMatch row.rule)), db.nextId⟩
    (buildRule pType pr.2)

/-- `UpdatePolicies` (newest revision): rejects batches of different lengths
before touching the database; an empty batch is a no-op; otherwise all pairs
are replaced inside one transaction and `failAt = some i` with `i` in range
makes the `i`-th pair's statement fail, rolling the whole batch back. -/
def UpdatePolicies (db : DB) (pType : String) (oldRules newRules : List (List String))
    (failAt : Option Nat) : DB × Bool :=
  if oldRules.length ≠ newRules.length then (db, false)
  else if oldRules.isEmpty then (db, true)
  else
    match failAt with
    | some i =>
        if i < oldRules.length then (db, false)
        else ((oldRules.zip newRules).foldl (updatePair pType) db, true)
    | none => ((oldRules.zip newRules).foldl (updatePair pType) db, true)

/-- `UpdateFilteredPolicies` (newest revision).  The source scans the rows
matching the positional filter (before the transaction — indistinguishable
here from scanning inside it, as nothing runs in between), converts them
with `toSlice` into the returned "old" set, then in one transaction deletes
the matched rows (the delete is built from the plain handle but executed
with the transaction ctx, which GoFrame routes into the transaction) and
inserts the new rules in batches of 1000; any failure rolls the transaction
back.  `scanOk`/`txOk` are the failure oracles. -/
def UpdateFilteredPolicies (db : DB) (pType : String) (newPolicies : List (List String))
    (fieldIndex : Nat) (fieldValues : List String) (scanOk txOk : Bool) :
    DB × Except String (List (List String)) :=
  if !scanOk then (db, .error "failed to scan old rules")
  else
    let matched := (db.rows.map Row.rule).filter (posFilterMatch pType fieldIndex fieldValues)
    let oldPolicies := matched.map Rule.toSlice
    if !txOk then (db, .error "transaction failed")
    else
      let db1 : DB :=
        ⟨db.rows.filter (fun row => !(posFilterMatch pType fieldIndex fieldValues row.rule)),
          db.nextId⟩
      ((chunks 1000 (newPolicies.map (buildRule pType))).foldl insertRules db1,
        .ok oldPolicies)

/-- The seven fields read by the third revision's `loadPolicyRule`:
`p := []string{PType, V0, V1, V2, V3, V4, V5}`. -/
def ruleFields (r : Rule) : List String :=
  [r.pType, r.v0, r.v1, r.v2, r.v3, r.v4, r.v5]

/-- The descending trim loop of the third revision's `loadPolicyRule`:
`for p[index] == "" { index-- }` starting at `len(p)-1`.  `none` models the
out-of-bounds access the Go code performs when the index leaves the array
(in particular when it is decremented below zero). -/
def trimLoop (p : List String) : Nat → Option Nat
  | 0 =>
      match p.get? 0 with
      | none => none
      | some s => if s = "" then none else some 0
  | i + 1 =>
      match p.get? (i + 1) with
      | none => none
      | some s => if s = "" then trimLoop p i else some (i + 1)

/-- The third revision's `loadPolicyRule`, up to the call into the engine:
the trimmed prefix `p[:index+1]` it hands to `persist.LoadPolicyArray`, or
`none` when the loop runs off the array. -/
def loadPolicyRuleTrim (r : Rule) : Option (List String) :=
  let p := ruleFields r
  (trimLoop p (p.length - 1)).map (fun idx => p.take (idx + 1))

theorem removeAllEmpty_cons (s : String) (l : List String) :
    removeAllEmpty (s :: l) = (if s = "" then [] else [s]) ++ removeAllEmpty l := by
  by_cases hs : s = "" <;> simp [removeAllEmpty, hs]

theorem toSlice_mk (pt a b c d e f : String) :
    (Rule.mk pt a b c d e f).toSlice = removeAllEmpty [a, b, c, d, e, f] := by
  simp only [Rule.toSlice, removeAllEmpty_cons]
  simp [removeAllEmpty]

/-- Building a row from a tuple of at most six fields and converting it back
removes every empty field of the tuple, wherever it sits. -/
theorem toSlice_buildRule (pt : String) (data : List String) (h : data.length ≤ 6) :
    (buildRule pt data).toSlice = removeAllEmpty data := by
  rw [show buildRule pt data = Rule.mk pt (data.getD 0 "") (data.getD 1 "") (data.getD 2 "")
    (data.getD 3 "") (data.getD 4 "") (data.getD 5 "") from rfl,
    toSlice_mk pt (data.getD 0 "") (data.getD 1 "") (data.getD 2 "")
      (data.getD 3 "") (data.getD 4 "") (data.getD 5 "")]
  match data, h with
  | [], _ => simp [removeAllEmpty]
  | [a], _ =>
      simp only [List.getD_cons_zero, List.getD_cons_succ, List.getD_nil, removeAllEmpty_cons]
      try simp [removeAllEmpty]
  | [a, b], _ =>
      simp only [List.getD_cons_zero, List.getD_cons_succ, List.getD_nil, removeAllEmpty_cons]
      try simp [removeAllEmpty]
  | [a, b, c], _ =>
      simp only [List.getD_cons_zero, List.getD_cons_succ, List.getD_nil, removeAllEmpty_cons]
      try simp [removeAllEmpty]
  | [a, b, c, d], _ =>
      simp only [List.getD_cons_zero, List.getD_cons_succ, List.getD_nil, removeAllEmpty_cons]
      try simp [removeAllEmpty]
  | [a, b, c, d, e], _ =>
      simp only [List.getD_cons_zero, List.getD_cons_succ, List.getD_nil, removeAllEmpty_cons]
      try simp [removeAllEmpty]
  | [a, b, c, d, e, f], _ =>
      simp only [List.getD_cons_zero, List.getD_cons_succ, List.getD_nil, removeAllEmpty_cons]
      try simp [removeAllEmpty]

theorem chunksAux_flatten (n : Nat) (hn : 0 < n) :
    ∀ (fuel : Nat) (l : List Rule), l.length ≤ fuel → (chunksAux n fuel l).flatten = l := by
  intro fuel
  induction fuel with
  | zero =>
      intro l hl
      have hle : l = [] := List.eq_nil_of_length_eq_zero (Nat.le_zero.mp hl)
      subst hle
      rfl
  | succ k ih =>
      intro l hl
      match l with
      | [] => rfl
      | a :: l =>
          rw [show chunksAux n (k + 1) (a :: l)
                = (a :: l).take n :: chunksAux n k ((a :: l).drop n) from rfl]
          have hld : ((a :: l).drop n).length ≤ k := by
            simp only [List.length_drop, List.length_cons]
            simp only [List.length_cons] at hl
            omega
          simp only [List.flatten_cons]
          rw [ih ((a :: l).drop n) hld]
          exact List.take_append_drop n (a :: l)

/-- Rebuilding the batches of a batched insert yields the original rule
list. -/
theorem chunks_flatten (n : Nat) (hn : 0 < n) (l : List Rule) :
    (chunks n l).flatten = l :=
  chunksAux_flatten n hn l.length l (Nat.le_refl _)

theorem chunksAux_batch_le (n : Nat) :
    ∀ (fuel : Nat) (l : List Rule), ∀ b ∈ chunksAux n fuel l, b.length ≤ n := by
  intro fuel
  induction fuel with
  | zero =>
      intro l b hb
      match l with
      | [] => simp [chunksAux] at hb
      | _ :: _ => simp [chunksAux] at hb
  | succ k ih =>
      intro l b hb
      match l with
      | [] => simp [chunksAux] at hb
      | a :: l =>
          rw [show chunksAux n (k + 1) (a :: l)
                = (a :: l).take n :: chunksAux n k ((a :: l).drop n) from rfl] at hb
          rcases List.mem_cons.mp hb with hb | hb
          · subst hb
            rw [List.length_take]
            exact min_le_left _ _
          · exact ih ((a :: l).drop n) b hb

/-- Every batch produced by the batching loop holds at most `n` rows. -/
theorem chunks_batch_le (n : Nat) (l : List Rule) :
    ∀ b ∈ chunks n l, b.length ≤ n :=
  chunksAux_batch_le n l.length l

theorem insertRules_rows_map (rs : List Rule) (db : DB) :
    (insertRules db rs).rows.map Row.rule = db.rows.map Row.rule ++ rs := by
  induction rs generalizing db with
  | nil => simp [insertRules]
  | cons r rs ih =>
      rw [show insertRules db (r :: rs) = insertRules (insertRule db r) rs from rfl, ih]
      simp [insertRule]

/-- Folding batched inserts over a batch list appends the concatenation of
the batches. -/
theorem foldl_insertRules_rows_map (cs : List (List Rule)) (db : DB) :
    (cs.foldl insertRules db).rows.map Row.rule = db.rows.map Row.rule ++ cs.flatten := by
  induction cs generalizing db with
  | nil => simp
  | cons c cs ih =>
      rw [List.foldl_cons, ih, insertRules_rows_map]
      simp [List.flatten_cons]

theorem map_rule_filter (rows : List Row) (p : Rule → Bool) :
    (rows.filter (fun row => p row.rule)).map Row.rule = (rows.map Row.rule).filter p := by
  induction rows with
  | nil => rfl
  | cons a l ih => by_cases hp : p a.rule <;> simp [List.filter_cons, hp, ih]

theorem filter_not_of_no_match (rows : List Row) (p : Rule → Bool)
    (h : ∀ row ∈ rows, p row.rule = false) :
    rows.filter (fun row => !(p row.rule)) = rows := by
  induction rows with
  | nil => rfl
  | cons a l ih =>
      have ha := h a (by simp)
      simp only [List.filter_cons, ha]
      simp [ih (fun r hr => h r (by simp [hr]))]

/-- What one pass of the load fold does to one model entry: it appends, in
scan order, the slices of exactly those scanned rows that are non-empty
after `toSlice` and whose rule-kind selects this entry. -/
theorem loadRules_apply (rs : List Rule) (m : PolicyMap) (s k : String) :
    loadRules rs m s k
      = m s k ++ (rs.filter
          (fun r => !r.toSlice.isEmpty && (k == r.pType) && (s == r.pType.take 1))).map
            Rule.toSlice := by
  induction rs generalizing m with
  | nil => simp [loadRules]
  | cons r rs ih =>
      rw [show loadRules (r :: rs) m = loadRules rs (loadPolicyRule r m) from rfl, ih]
      by_cases he : r.toSlice.isEmpty = true
      · simp [loadPolicyRule, he, List.filter_cons]
      · by_cases hk : k = r.pType
        · by_cases hs : s = r.pType.take 1
          · simp [loadPolicyRule, he, appendPolicy, hk, hs, List.filter_cons]
          · simp [loadPolicyRule, he, appendPolicy, hk, hs, List.filter_cons]
        · simp [loadPolicyRule, he, appendPolicy, hk, List.filter_cons]

/-- The WHERE clause of `toQuery`, unfolded: `p_type` must match, and each
field constrains the row exactly when the query rule's field is
non-empty. -/
theorem toQueryMatch_iff (c r : Rule) :
    c.toQueryMatch r = true ↔
      (r.pType = c.pType ∧
       (c.v0 ≠ "" → r.v0 = c.v0) ∧ (c.v1 ≠ "" → r.v1 = c.v1) ∧
       (c.v2 ≠ "" → r.v2 = c.v2) ∧ (c.v3 ≠ "" → r.v3 = c.v3) ∧
       (c.v4 ≠ "" → r.v4 = c.v4) ∧ (c.v5 ≠ "" → r.v5 = c.v5)) := by
  simp only [Rule.toQueryMatch, Bool.and_eq_true, Bool.or_eq_true, beq_iff_eq,
    or_iff_not_imp_left, ne_eq, and_assoc]

/-- The exact-match predicate of `RemovePolicy`'s WHERE clause, written
positionally over the supplied tuple. -/
def exactMatchProp (pType : String) (rule : List String) (r : Rule) : Prop :=
  r.pType = pType ∧
  (rule.getD 0 "" ≠ "" → r.v0 = rule.getD 0 "") ∧
  (rule.getD 1 "" ≠ "" → r.v1 = rule.getD 1 "") ∧
  (rule.getD 2 "" ≠ "" → r.v2 = rule.getD 2 "") ∧
  (rule.getD 3 "" ≠ "" → r.v3 = rule.getD 3 "") ∧
  (rule.getD 4 "" ≠ "" → r.v4 = rule.getD 4 "") ∧
  (rule.getD 5 "" ≠ "" → r.v5 = rule.getD 5 "")

instance (pType : String) (rule : List String) (r : Rule) :
    Decidable (exactMatchProp pType rule r) := by
  unfold exactMatchProp
  infer_instance

theorem toQueryMatch_buildRule_iff (pType : String) (rule : List String) (r : Rule) :
    (buildRule pType rule).toQueryMatch r = true ↔ exactMatchProp pType rule r := by
  rw [toQueryMatch_iff]
  exact Iff.rfl

/-- The positional-window predicate of `RemoveFilteredPolicy` and
`UpdateFilteredPolicies`: each supplied NON-empty value pins the field at
its offset from `fieldIndex`. -/
def windowMatchProp (pType : String) (fieldIndex : Nat) (vals : List String) (r : Rule) :
    Prop :=
  r.pType = pType ∧
  ∀ j, j < vals.length → vals.getD j "" ≠ "" → r.vAt (fieldIndex + j) = vals.getD j ""

instance (pType : String) (fieldIndex : Nat) (vals : List String) (r : Rule) :
    Decidable (windowMatchProp pType fieldIndex vals r) := by
  unfold windowMatchProp
  infer_instance

theorem matchWindow_iff (r : Rule) (vs : List String) :
    ∀ i, matchWindow r i vs = true ↔
      ∀ j, j < vs.length → vs.getD j "" ≠ "" → r.vAt (i + j) = vs.getD j "" := by
  induction vs with
  | nil =>
      intro i
      simp [matchWindow]
  | cons v vs ih =>
      intro i
      rw [show matchWindow r i (v :: vs)
            = ((v == "" || r.vAt i == v) && matchWindow r (i + 1) vs) from rfl]
      simp only [Bool.and_eq_true, Bool.or_eq_true, beq_iff_eq, ih (i + 1)]
      constructor
      · rintro ⟨h1, h2⟩ j hj hne
        cases j with
        | zero =>
            simp only [List.getD_cons_zero] at hne ⊢
            rcases h1 with h1 | h1
            · exact absurd h1 hne
            · simpa using h1
        | succ j' =>
            simp only [List.getD_cons_succ] at hne ⊢
            have hj' : j' < vs.length := by simpa using hj
            have := h2 j' hj' hne
            rw [show i + (j' + 1) = i + 1 + j' from by omega]
            exact this
      · intro h
        constructor
        · by_cases hv : v = ""
          · exact Or.inl hv
          · refine Or.inr ?_
            have := h 0 (by simp) (by simpa using hv)
            simpa using this
        · intro j hj hne
          have := h (j + 1) (by simpa using hj) (by simpa using hne)
          rw [show i + 1 + j = i + (j + 1) from by omega]
          simpa using this

theorem posFilterMatch_iff (pType : String) (fieldIndex : Nat) (vals : List String)
    (r : Rule) :
    posFilterMatch pType fieldIndex vals r = true ↔
      windowMatchProp pType fieldIndex vals r := by
  simp only [posFilterMatch, windowMatchProp, Bool.and_eq_true, beq_iff_eq,
    matchWindow_iff r vals fieldIndex]

/-- The WHERE clause of `LoadFilteredPolicy`, unfolded: per-field
set-membership, applied only for fields whose value set is non-empty,
conjoined across fields. -/
theorem filterMatch_iff (f : Filter) (r : Rule) :
    filterMatch f r = true ↔
      ((f.pType ≠ [] → r.pType ∈ f.pType) ∧ (f.v0 ≠ [] → r.v0 ∈ f.v0) ∧
       (f.v1 ≠ [] → r.v1 ∈ f.v1) ∧ (f.v2 ≠ [] → r.v2 ∈ f.v2) ∧
       (f.v3 ≠ [] → r.v3 ∈ f.v3) ∧ (f.v4 ≠ [] → r.v4 ∈ f.v4) ∧
       (f.v5 ≠ [] → r.v5 ∈ f.v5)) := by
  simp only [filterMatch, Bool.and_eq_true, Bool.or_eq_true, List.isEmpty_iff,
    List.contains, List.elem_iff, or_iff_not_imp_left, ne_eq, and_assoc]

theorem toSlice_eq_nil_of_empty (r : Rule) (h0 : r.v0 = "") (h1 : r.v1 = "")
    (h2 : r.v2 = "") (h3 : r.v3 = "") (h4 : r.v4 = "") (h5 : r.v5 = "") :
    r.toSlice = [] := by
  simp [Rule.toSlice, h0, h1, h2, h3, h4, h5]

theorem loadRules_eq_of_empty (rs : List Rule) (m : PolicyMap)
    (h : ∀ r ∈ rs, r.toSlice = []) : loadRules rs m = m := by
  induction rs with
  | nil => rfl
  | cons r rs ih =>
      rw [show loadRules (r :: rs) m = loadRules rs (loadPolicyRule r m) from rfl,
        show loadPolicyRule r m = m from by simp [loadPolicyRule, h r (by simp)]]
      exact ih (fun r2 hr2 => h r2 (by simp [hr2]))

/-- C1.  COUNTEREXAMPLE.  The claim asserts that for the newest revision an
`AddPolicy`/`LoadPolicy` round trip strips only TRAILING empty fields and
keeps empty fields in the middle of the tuple in place.  On the tuple
`["alice", "", "read"]` the code loads back `["alice", "read"]`: the middle
empty field is dropped as well, while trailing-only trimming would keep
`["alice", "", "read"]`. -/
theorem C1_counterexample :
    LoadPolicy (AddPolicy emptyDB "p" ["alice", "", "read"]) emptyPolicyMap "p" "p"
      = [["alice", "read"]]
    ∧ specTrimTrailing ["alice", "", "read"] = ["alice", "", "read"]
    ∧ ([["alice", "read"]] : List (List String)) ≠ [["alice", "", "read"]] :=
  ⟨by decide, by decide, by decide⟩

/-- C1 (amended).  For every rule-kind and tuple of at most 6 fields,
`AddPolicy` then `LoadPolicy` on an empty store yields the tuple with ALL
empty fields removed (middle ones included); when every field is empty the
rule is not loaded at all. -/
theorem C1_roundtrip_amended (pType : String) (rule : List String)
    (hp : pType ≠ "") (hlen : rule.length ≤ 6) :
    LoadPolicy (AddPolicy emptyDB pType rule) emptyPolicyMap (pType.take 1) pType
      = if removeAllEmpty rule = [] then [] else [removeAllEmpty rule] := by
  show loadPolicyRule (buildRule pType rule) emptyPolicyMap (pType.take 1) pType = _
  simp only [loadPolicyRule, toSlice_buildRule pType rule hlen]
  by_cases hr : removeAllEmpty rule = []
  · simp [hr, emptyPolicyMap]
  · simp [hr, List.isEmpty_iff, appendPolicy, emptyPolicyMap]
    exact ⟨rfl, rfl⟩

theorem C1_roundtrip_amended_witness :
    LoadPolicy (AddPolicy emptyDB "p" ["alice", "", "read"]) emptyPolicyMap
        (("p" : String).take 1) "p"
      = [["alice", "read"]] := by
  rw [C1_roundtrip_amended "p" ["alice", "", "read"] (by decide) (by decide)]
  decide

/-- C9.  In the third revision's `loadPolicyRule`, the descending trim loop
stays in bounds and terminates whenever at least one of the seven fields
`p_type, v0..v5` is non-empty — it then hands the engine the prefix up to
the last non-empty field (the fields with trailing empties stripped) — and
that precondition is necessary: on a row whose seven fields are all empty
the loop decrements the index below zero and reads out of bounds (`none`
here). -/
theorem C9_trimLoop_safety (r : Rule) :
    ((∃ s ∈ ruleFields r, s ≠ "") →
        loadPolicyRuleTrim r = some (specTrimTrailing (ruleFields r))) ∧
    ((∀ s ∈ ruleFields r, s = "") → loadPolicyRuleTrim r = none) := by
  obtain ⟨pt, a0, a1, a2, a3, a4, a5⟩ := r
  by_cases h5 : a5 = ""
  case neg =>
    refine ⟨fun _ => ?_, fun hall => absurd (hall a5 (by simp [ruleFields])) h5⟩
    simp [loadPolicyRuleTrim, ruleFields, trimLoop, h5, specTrimTrailing,
      List.dropWhile, beq_eq_false_iff_ne.mpr h5]
  case pos =>
  subst h5
  by_cases h4 : a4 = ""
  case neg =>
    refine ⟨fun _ => ?_, fun hall => absurd (hall a4 (by simp [ruleFields])) h4⟩
    simp [loadPolicyRuleTrim, ruleFields, trimLoop, h4, specTrimTrailing,
      List.dropWhile, beq_eq_false_iff_ne.mpr h4]
  case pos =>
  subst h4
  by_cases h3 : a3 = ""
  case neg =>
    refine ⟨fun _ => ?_, fun hall => absurd (hall a3 (by simp [ruleFields])) h3⟩
    simp [loadPolicyRuleTrim, ruleFields, trimLoop, h3, specTrimTrailing,
      List.dropWhile, beq_eq_false_iff_ne.mpr h3]
  case pos =>
  subst h3
  by_cases h2 : a2 = ""
  case neg =>
    refine ⟨fun _ => ?_, fun hall => absurd (hall a2 (by simp [ruleFields])) h2⟩
    simp [loadPolicyRuleTrim, ruleFields, trimLoop, h2, specTrimTrailing,
      List.dropWhile, beq_eq_false_iff_ne.mpr h2]
  case pos =>
  subst h2
  by_cases h1 : a1 = ""
  case neg =>
    refine ⟨fun _ => ?_, fun hall => absurd (hall a1 (by simp [ruleFields])) h1⟩
    simp [loadPolicyRuleTrim, ruleFields, trimLoop, h1, specTrimTrailing,
      List.dropWhile, beq_eq_false_iff_ne.mpr h1]
  case pos =>
  subst h1
  by_cases h0 : a0 = ""
  case neg =>
    refine ⟨fun _ => ?_, fun hall => absurd (hall a0 (by simp [ruleFields])) h0⟩
    simp [loadPolicyRuleTrim, ruleFields, trimLoop, h0, specTrimTrailing,
      List.dropWhile, beq_eq_false_iff_ne.mpr h0]
  case pos =>
  subst h0
  by_cases hpt : pt = ""
  case neg =>
    refine ⟨fun _ => ?_, fun hall => absurd (hall pt (by simp [ruleFields])) hpt⟩
    simp [loadPolicyRuleTrim, ruleFields, trimLoop, hpt, specTrimTrailing,
      List.dropWhile, beq_eq_false_iff_ne.mpr hpt]
  case pos =>
  subst hpt
  constructor
  · rintro ⟨s, hs, hne⟩
    simp [ruleFields] at hs
    exact absurd hs hne
  · intro _
    decide

theorem C9_trimLoop_safety_witness :
    loadPolicyRuleTrim (Rule.mk "p" "alice" "data1" "read" "" "" "")
      = some ["p", "alice", "data1", "read"] := by
  rw [(C9_trimLoop_safety (Rule.mk "p" "alice" "data1" "read" "" "" "")).1
    ⟨"alice", by decide, by decide⟩]
  decide

/-- C10.  In the newest revision, `LoadPolicy` and `LoadFilteredPolicy`
silently skip every stored row whose value fields `v0..v5` are all empty
(its `toSlice` is empty, so `loadPolicyRule` returns without appending), and
a rule consisting of a rule-kind with no value fields does not survive a
store-then-load cycle. -/
theorem C10_kindOnly_rows_skipped (db : DB) (m : PolicyMap) (pType : String) (f : Filter)
    (h : ∀ row ∈ db.rows, row.rule.v0 = "" ∧ row.rule.v1 = "" ∧ row.rule.v2 = "" ∧
      row.rule.v3 = "" ∧ row.rule.v4 = "" ∧ row.rule.v5 = "") :
    LoadPolicy db m = m ∧
    LoadFilteredPolicy db m (.valid f) = .ok (m, true) ∧
    LoadPolicy (AddPolicy emptyDB pType []) m = m := by
  have hsl : ∀ row ∈ db.rows, row.rule.toSlice = [] := by
    intro row hr
    obtain ⟨h0, h1, h2, h3, h4, h5⟩ := h row hr
    exact toSlice_eq_nil_of_empty _ h0 h1 h2 h3 h4 h5
  refine ⟨?_, ?_, ?_⟩
  · apply loadRules_eq_of_empty
    intro r hr
    rcases List.mem_map.mp hr with ⟨row, hrow, rfl⟩
    exact hsl row ((List.perm_insertionSort rowLe db.rows).mem_iff.mp hrow)
  · have hsel : ∀ r2 ∈ (db.rows.map Row.rule).filter (filterMatch f), r2.toSlice = [] := by
      intro r2 hr2
      rcases List.mem_map.mp (List.mem_filter.mp hr2).1 with ⟨row, hrow, rfl⟩
      exact hsl row hrow
    show Except.ok (loadRules ((db.rows.map Row.rule).filter (filterMatch f)) m, true) = _
    rw [loadRules_eq_of_empty _ _ hsel]
  · show loadPolicyRule (buildRule pType []) m = m
    simp [loadPolicyRule, Rule.toSlice, buildRule]

theorem C10_kindOnly_rows_skipped_witness :
    LoadPolicy ⟨[⟨0, Rule.mk "g" "" "" "" "" "" ""⟩], 1⟩ emptyPolicyMap = emptyPolicyMap :=
  (C10_kindOnly_rows_skipped ⟨[⟨0, Rule.mk "g" "" "" "" "" "" ""⟩], 1⟩ emptyPolicyMap "g"
    (Filter.mk [] [] [] [] [] [] []) (by decide)).1

/-- C8.  COUNTEREXAMPLE.  The claim asserts that `LoadPolicy` converts EACH
row to a tuple and appends EACH tuple to the model.  On a table holding one
row whose value fields are all empty, the code appends nothing (entry
`("p", "p")` stays `[]`), while appending that row's converted tuple would
leave `[[]]` there. -/
theorem C8_counterexample :
    LoadPolicy ⟨[⟨0, Rule.mk "p" "" "" "" "" "" ""⟩], 1⟩ emptyPolicyMap "p" "p" = []
    ∧ ([] : List (List String)) ≠ [(Rule.mk "p" "" "" "" "" "" "").toSlice] :=
  ⟨by decide, by decide⟩

/-- C8 (amended).  `LoadPolicy` reads the rows ordered by primary key
ascending (a sorted permutation of the table), and every model entry
receives, appended in that row order, the converted tuples of exactly the
rows whose rule-kind selects it AND whose converted tuple is non-empty
(rows converting to the empty tuple are skipped); entries selected by no
row are unchanged. -/
theorem C8_loadPolicy_amended (db : DB) (m : PolicyMap)
    (hp : ∀ row ∈ db.rows, row.rule.pType ≠ "") :
    List.Sorted rowLe (sortById db.rows) ∧
    (sortById db.rows).Perm db.rows ∧
    ∀ s k, LoadPolicy db m s k
      = m s k ++ (((sortById db.rows).map Row.rule).filter
          (fun r => !r.toSlice.isEmpty && (k == r.pType) && (s == r.pType.take 1))).map
            Rule.toSlice :=
  ⟨List.sorted_insertionSort rowLe db.rows, List.perm_insertionSort rowLe db.rows,
    fun s k => loadRules_apply _ m s k⟩

theorem C8_loadPolicy_amended_witness :
    LoadPolicy ⟨[⟨2, Rule.mk "p" "bob" "data2" "write" "" "" ""⟩,
        ⟨1, Rule.mk "p" "alice" "data1" "read" "" "" ""⟩], 3⟩ emptyPolicyMap "p" "p"
      = [["alice", "data1", "read"], ["bob", "data2", "write"]] := by
  rw [(C8_loadPolicy_amended ⟨[⟨2, Rule.mk "p" "bob" "data2" "write" "" "" ""⟩,
    ⟨1, Rule.mk "p" "alice" "data1" "read" "" "" ""⟩], 3⟩ emptyPolicyMap
    (by decide)).2.2 "p" "p"]
  decide

/-- C4.  COUNTEREXAMPLE.  The claim asserts that `LoadFilteredPolicy` loads
exactly the rows satisfying the filter.  A stored row with rule-kind `p` and
all value fields empty satisfies the filter `PType = {p}`, yet the call
leaves the model unchanged: the matching row is never loaded. -/
theorem C4_counterexample :
    filterMatch (Filter.mk ["p"] [] [] [] [] [] []) (Rule.mk "p" "" "" "" "" "" "") = true
    ∧ LoadFilteredPolicy ⟨[⟨0, Rule.mk "p" "" "" "" "" "" ""⟩], 1⟩ emptyPolicyMap
        (.valid (Filter.mk ["p"] [] [] [] [] [] [])) = .ok (emptyPolicyMap, true)
    ∧ emptyPolicyMap "p" "p" = [] :=
  ⟨by decide, rfl, rfl⟩

/-- C4 (amended).  `LoadFilteredPolicy` fails on an argument that is not of
the `Filter` type; for a `Filter` it selects exactly the stored rows that,
for each field with a non-empty value set, have that field's value in the
set (conjunction across fields, an empty set imposing no constraint), feeds
the selection to `loadPolicyRule` — which appends exactly the selected rows
whose converted tuple is non-empty — and marks the adapter state as
filtered. -/
theorem C4_loadFilteredPolicy_amended (db : DB) (m : PolicyMap) (f : Filter) :
    LoadFilteredPolicy db m .invalid = .error "invalid filter type" ∧
    (∀ r : Rule, filterMatch f r = true ↔
      ((f.pType ≠ [] → r.pType ∈ f.pType) ∧ (f.v0 ≠ [] → r.v0 ∈ f.v0) ∧
       (f.v1 ≠ [] → r.v1 ∈ f.v1) ∧ (f.v2 ≠ [] → r.v2 ∈ f.v2) ∧
       (f.v3 ≠ [] → r.v3 ∈ f.v3) ∧ (f.v4 ≠ [] → r.v4 ∈ f.v4) ∧
       (f.v5 ≠ [] → r.v5 ∈ f.v5))) ∧
    LoadFilteredPolicy db m (.valid f)
      = .ok (loadRules ((db.rows.map Row.rule).filter (filterMatch f)) m, true) ∧
    (∀ s k, loadRules ((db.rows.map Row.rule).filter (filterMatch f)) m s k
      = m s k ++ (((db.rows.map Row.rule).filter (filterMatch f)).filter
          (fun r => !r.toSlice.isEmpty && (k == r.pType) && (s == r.pType.take 1))).map
            Rule.toSlice) :=
  ⟨rfl, fun r => filterMatch_iff f r, rfl, fun s k => loadRules_apply _ m s k⟩

theorem C4_loadFilteredPolicy_amended_witness :
    loadRules ((([⟨1, Rule.mk "p" "alice" "data1" "read" "" "" ""⟩,
        ⟨2, Rule.mk "p" "bob" "data2" "write" "" "" ""⟩] : List Row).map Row.rule).filter
          (filterMatch (Filter.mk [] ["alice"] [] [] [] [] []))) emptyPolicyMap "p" "p"
      = [["alice", "data1", "read"]] := by
  rw [(C4_loadFilteredPolicy_amended ⟨[⟨1, Rule.mk "p" "alice" "data1" "read" "" "" ""⟩,
    ⟨2, Rule.mk "p" "bob" "data2" "write" "" "" ""⟩], 3⟩ emptyPolicyMap
    (Filter.mk [] ["alice"] [] [] [] [] [])).2.2.2 "p" "p"]
  decide

/-- C6.  COUNTEREXAMPLE.  The claim asserts that `RemovePolicy` deletes
exactly the rows matching EVERY supplied field value.  With tuple
`["a", "", "c"]` the supplied middle field is the empty string, yet the code
deletes a stored row whose middle field is `"x" ≠ ""`: `toQuery` adds no
constraint for a supplied empty field. -/
theorem C6_counterexample :
    (RemovePolicy ⟨[⟨0, Rule.mk "p" "a" "x" "c" "" "" ""⟩], 1⟩ "p" ["a", "", "c"]).1.rows
      = []
    ∧ (Rule.mk "p" "a" "x" "c" "" "" "").v1 ≠ ["a", "", "c"].getD 1 "" :=
  ⟨by decide, by decide⟩

/-- C6 (amended).  `RemovePolicy` deletes exactly the rows matching the
rule-kind and every supplied NON-empty field value exactly; supplied empty
fields, like omitted ones, are unconstrained.  When no row matches, the call
succeeds with no error and leaves the table unchanged. -/
theorem C6_removePolicy_amended (db : DB) (pType : String) (rule : List String) :
    (RemovePolicy db pType rule).2 = true ∧
    (RemovePolicy db pType rule).1.rows
      = db.rows.filter (fun row => !(decide (exactMatchProp pType rule row.rule))) ∧
    ((∀ row ∈ db.rows, ¬ exactMatchProp pType rule row.rule) →
      (RemovePolicy db pType rule).1 = db) := by
  refine ⟨rfl, ?_, ?_⟩
  · apply List.filter_congr
    intro row hrow
    rcases hb : (buildRule pType rule).toQueryMatch row.rule with _ | _
    · have hnm : ¬ exactMatchProp pType rule row.rule := fun hmp => by
        simp [(toQueryMatch_buildRule_iff pType rule row.rule).mpr hmp] at hb
      simp [hnm]
    · simp [(toQueryMatch_buildRule_iff pType rule row.rule).mp hb]
  · intro hnone
    have hfalse : ∀ row ∈ db.rows, (buildRule pType rule).toQueryMatch row.rule = false := by
      intro row hrow
      rcases hb : (buildRule pType rule).toQueryMatch row.rule with _ | _
      · rfl
      · exact absurd ((toQueryMatch_buildRule_iff pType rule row.rule).mp hb)
          (hnone row hrow)
    show (⟨db.rows.filter _, db.nextId⟩ : DB) = db
    rw [filter_not_of_no_match db.rows _ hfalse]

theorem C6_removePolicy_amended_witness :
    (RemovePolicy ⟨[⟨0, Rule.mk "p" "a" "b" "" "" "" ""⟩], 1⟩ "p" ["zzz"]).1
      = ⟨[⟨0, Rule.mk "p" "a" "b" "" "" "" ""⟩], 1⟩ :=
  (C6_removePolicy_amended ⟨[⟨0, Rule.mk "p" "a" "b" "" "" "" ""⟩], 1⟩ "p" ["zzz"]).2.2
    (by decide)

/-- C7.  COUNTEREXAMPLE.  The claim asserts that `RemoveFilteredPolicy`
deletes exactly the rows whose field at `fieldIndex + i` equals `values[i]`
for EVERY supplied value.  With `values = [""]` the code deletes a row whose
field at `fieldIndex` is `"x" ≠ ""`: supplied empty values are skipped and
impose no constraint. -/
theorem C7_counterexample :
    (RemoveFilteredPolicy ⟨[⟨0, Rule.mk "p" "x" "" "" "" "" ""⟩], 1⟩ "p" 0 [""]).1.rows
      = []
    ∧ (Rule.mk "p" "x" "" "" "" "" "").vAt 0 ≠ ([""] : List String).getD 0 "" :=
  ⟨by decide, by decide⟩

/-- C7 (amended).  For a field index in `0..5`, `RemoveFilteredPolicy`
deletes exactly the rows of the rule-kind whose field at `fieldIndex + i`
equals `values[i]` for every supplied NON-empty value (empty values advance
the window without constraining), leaving all other rows unchanged; a field
index outside `0..5` is rejected with an error and nothing is deleted. -/
theorem C7_removeFilteredPolicy_amended (db : DB) (pType : String) (fieldIndex : Nat)
    (fieldValues : List String) (hw : fieldIndex + fieldValues.length ≤ 6) :
    (fieldIndex ≤ 5 →
      (RemoveFilteredPolicy db pType fieldIndex fieldValues).2 = true ∧
      (RemoveFilteredPolicy db pType fieldIndex fieldValues).1.rows
        = db.rows.filter
            (fun row => !(decide (windowMatchProp pType fieldIndex fieldValues row.rule)))) ∧
    (5 < fieldIndex →
      RemoveFilteredPolicy db pType fieldIndex fieldValues = (db, false)) := by
  constructor
  · intro hle
    have hnot : ¬ 5 < fieldIndex := by omega
    refine ⟨by simp [RemoveFilteredPolicy, hnot], ?_⟩
    simp only [RemoveFilteredPolicy, if_neg hnot]
    apply List.filter_congr
    intro row hrow
    rcases hb : posFilterMatch pType fieldIndex fieldValues row.rule with _ | _
    · have hnm : ¬ windowMatchProp pType fieldIndex fieldValues row.rule := fun hmp => by
        simp [(posFilterMatch_iff pType fieldIndex fieldValues row.rule).mpr hmp] at hb
      simp [hnm]
    · simp [(posFilterMatch_iff pType fieldIndex fieldValues row.rule).mp hb]
  · intro hgt
    simp [RemoveFilteredPolicy, hgt]

theorem C7_removeFilteredPolicy_amended_witness :
    (RemoveFilteredPolicy ⟨[⟨0, Rule.mk "p" "alice" "data1" "read" "" "" ""⟩,
        ⟨1, Rule.mk "p" "bob" "data2" "write" "" "" ""⟩], 2⟩ "p" 0 ["alice"]).1.rows
      = [⟨1, Rule.mk "p" "bob" "data2" "write" "" "" ""⟩] := by
  rw [((C7_removeFilteredPolicy_amended ⟨[⟨0, Rule.mk "p" "alice" "data1" "read" "" "" ""⟩,
    ⟨1, Rule.mk "p" "bob" "data2" "write" "" "" ""⟩], 2⟩ "p" 0 ["alice"]
    (by decide)).1 (by decide)).2]
  decide

/-- C2.  COUNTEREXAMPLE.  The claim asserts that a failing `SavePolicy`
leaves the table either fully old or fully new.  The truncate runs before
(and outside) the insert transaction, so when the batch insert fails the
rollback undoes only the inserts: the table ends up empty — neither the old
contents (one `max` row) nor the new ones (one `alice` rule). -/
theorem C2_counterexample :
    (SavePolicy ⟨[⟨0, Rule.mk "p" "max" "data3" "delete" "" "" ""⟩], 1⟩
        (SaveModel.mk [("p", [["alice", "data1", "read"]])] []) true (some 0)).2 = false
    ∧ (SavePolicy ⟨[⟨0, Rule.mk "p" "max" "data3" "delete" "" "" ""⟩], 1⟩
        (SaveModel.mk [("p", [["alice", "data1", "read"]])] []) true (some 0)).1.rows = []
    ∧ ((⟨[⟨0, Rule.mk "p" "max" "data3" "delete" "" "" ""⟩], 1⟩ : DB)).rows ≠ []
    ∧ savePolicyRules (SaveModel.mk [("p", [["alice", "data1", "read"]])] []) ≠ [] :=
  ⟨by decide, by decide, by decide, by decide⟩

/-- C2 (amended).  `SavePolicy` truncates the table and bulk-inserts every
rule of the model's `p` and `g` sections, batched at 1000 rows per batch
inside one transaction; on success the table contains exactly the model's
rules and no pre-existing row survives.  On failure the outcome depends on
the failing step: a failing truncate leaves the old contents untouched,
while a failing batch insert rolls back only the inserts, leaving the table
empty (the truncate is not undone). -/
theorem C2_savePolicy_amended (db : DB) (m : SaveModel) :
    (∀ fb, SavePolicy db m false fb = (db, false)) ∧
    (SavePolicy db m true none).2 = true ∧
    (SavePolicy db m true none).1.rows.map Row.rule = savePolicyRules m ∧
    (chunks 1000 (savePolicyRules m)).flatten = savePolicyRules m ∧
    (∀ b ∈ chunks 1000 (savePolicyRules m), b.length ≤ 1000) ∧
    (∀ j, j < (chunks 1000 (savePolicyRules m)).length → savePolicyRules m ≠ [] →
      SavePolicy db m true (some j) = (⟨[], 0⟩, false)) := by
  refine ⟨fun fb => rfl, ?_, ?_, chunks_flatten 1000 (by omega) _, chunks_batch_le 1000 _,
    ?_⟩
  · by_cases hr : (savePolicyRules m).isEmpty = true <;> simp [SavePolicy, hr]
  · by_cases hr : (savePolicyRules m).isEmpty = true
    · simp [SavePolicy, hr, List.isEmpty_iff.mp hr]
    · simp only [SavePolicy, Bool.not_true, Bool.false_eq_true, if_false, hr]
      rw [foldl_insertRules_rows_map, chunks_flatten 1000 (by omega)]
      rfl
  · intro j hj hne
    have hr : (savePolicyRules m).isEmpty = false := by
      simp [List.isEmpty_iff, hne]
    simp [SavePolicy, hr, hj]

theorem C2_savePolicy_amended_witness :
    SavePolicy ⟨[⟨0, Rule.mk "p" "max" "data3" "delete" "" "" ""⟩], 1⟩
        (SaveModel.mk [("p", [["alice", "data1", "read"], ["bob", "data2", "write"]])] [])
        true (some 0)
      = (⟨[], 0⟩, false) :=
  (C2_savePolicy_amended ⟨[⟨0, Rule.mk "p" "max" "data3" "delete" "" "" ""⟩], 1⟩
    (SaveModel.mk [("p", [["alice", "data1", "read"], ["bob", "data2", "write"]])]
      [])).2.2.2.2.2 0 (by decide) (by decide)

/-- C3.  `UpdatePolicies` with old and new batches of different lengths
fails with the length-mismatch error before touching the database, so no
stored row is modified; with equal lengths the pairwise replacements run
inside one transaction — a failure at any single pair rolls the whole batch
back to the original table — and with no failure the final state is the
sequential pairwise replacement of the old rules by the new ones. -/
theorem C3_updatePolicies (db : DB) (pType : String)
    (oldRules newRules : List (List String)) (failAt : Option Nat) :
    (oldRules.length ≠ newRules.length →
      UpdatePolicies db pType oldRules newRules failAt = (db, false)) ∧
    (oldRules.length = newRules.length →
      ∀ i, i < oldRules.length →
        UpdatePolicies db pType oldRules newRules (some i) = (db, false)) ∧
    (oldRules.length = newRules.length →
      UpdatePolicies db pType oldRules newRules none
        = ((oldRules.zip newRules).foldl (updatePair pType) db, true)) := by
  refine ⟨fun hne => by simp [UpdatePolicies, hne], ?_, ?_⟩
  · intro heq i hi
    have hne0 : oldRules ≠ [] := by
      intro h
      subst h
      simp at hi
    simp [UpdatePolicies, heq, List.isEmpty_iff, hne0, hi]
    omega
  · intro heq
    by_cases hemp : oldRules = []
    · subst hemp
      have : newRules = [] := by
        cases newRules with
        | nil => rfl
        | cons a l => simp at heq
      subst this
      simp [UpdatePolicies]
    · simp [UpdatePolicies, heq, List.isEmpty_iff, hemp]

theorem C3_updatePolicies_witness :
    UpdatePolicies ⟨[⟨0, Rule.mk "p" "a" "b" "c" "" "" ""⟩], 1⟩ "p"
        [["a", "b", "c"]] [] none
      = (⟨[⟨0, Rule.mk "p" "a" "b" "c" "" "" ""⟩], 1⟩, false) :=
  (C3_updatePolicies ⟨[⟨0, Rule.mk "p" "a" "b" "c" "" "" ""⟩], 1⟩ "p"
    [["a", "b", "c"]] [] none).1 (by decide)

/-- C5.  `UpdateFilteredPolicies` selects the rows matching the positional
filter and returns their tuples as the "old" set; the deletion of those rows
and the insertion of the replacement rules run inside one transaction
(batched at 1000), so after a successful call exactly the replacement rows
stand in place of the matched rows, and a failure at any step (scan,
delete or insert) leaves the table unchanged and returns the error. -/
theorem C5_updateFilteredPolicies (db : DB) (pType : String)
    (newPolicies : List (List String)) (fieldIndex : Nat) (fieldValues : List String)
    (hw : fieldIndex + fieldValues.length ≤ 6) :
    UpdateFilteredPolicies db pType newPolicies fieldIndex fieldValues false true
      = (db, .error "failed to scan old rules") ∧
    UpdateFilteredPolicies db pType newPolicies fieldIndex fieldValues true false
      = (db, .error "transaction failed") ∧
    (UpdateFilteredPolicies db pType newPolicies fieldIndex fieldValues true true).2
      = .ok (((db.rows.map Row.rule).filter
          (posFilterMatch pType fieldIndex fieldValues)).map Rule.toSlice) ∧
    (UpdateFilteredPolicies db pType newPolicies fieldIndex fieldValues
        true true).1.rows.map Row.rule
      = (db.rows.map Row.rule).filter
          (fun r => !(posFilterMatch pType fieldIndex fieldValues r))
        ++ newPolicies.map (buildRule pType) := by
  refine ⟨rfl, rfl, rfl, ?_⟩
  show ((chunks 1000 (newPolicies.map (buildRule pType))).foldl insertRules
      ⟨db.rows.filter
        (fun row => !(posFilterMatch pType fieldIndex fieldValues row.rule)),
        db.nextId⟩).rows.map Row.rule = _
  rw [foldl_insertRules_rows_map, chunks_flatten 1000 (by omega)]
  rw [show (⟨db.rows.filter
      (fun row => !(posFilterMatch pType fieldIndex fieldValues row.rule)),
      db.nextId⟩ : DB).rows
    = db.rows.filter (fun row => !(posFilterMatch pType fieldIndex fieldValues row.rule))
    from rfl]
  rw [map_rule_filter db.rows
    (fun r => !(posFilterMatch pType fieldIndex fieldValues r))]

theorem C5_updateFilteredPolicies_witness :
    (UpdateFilteredPolicies ⟨[⟨0, Rule.mk "p" "alice" "data1" "read" "" "" ""⟩,
        ⟨1, Rule.mk "p" "bob" "data2" "write" "" "" ""⟩], 2⟩ "p" [["bob", "data2", "read"]]
        0 ["bob"] true true).2
      = .ok [["bob", "data2", "write"]] := by
  rw [(C5_updateFilteredPolicies ⟨[⟨0, Rule.mk "p" "alice" "data1" "read" "" "" ""⟩,
    ⟨1, Rule.mk "p" "bob" "data2" "write" "" "" ""⟩], 2⟩ "p" [["bob", "data2", "read"]]
    0 ["bob"] (by decide)).2.2.1]
  rfl

end GfAdapter
